import Mathlib

/-!
# Verification of the agent execution / session / delegation / approval core

Shallow embedding of the Python sources of the `claude_agent_sdk` package:

* `claude_agent_sdk/session.py`   — `AgentSession` and its mutators;
* `claude_agent_sdk/subagents.py` — `SubagentRegistry` (registration,
  delegation prompt, delegation with hooks);
* `claude_agent_sdk/base.py`      — `BaseAgent.reason`,
  `BaseAgent._execute_subagent`, `BaseAgent.autonomous_loop`;
* `claude_agent_sdk/integrations/yarnnn/client.py` —
  `YarnnnClient.wait_for_approval`.

Conventions of the embedding:

* Python `datetime.utcnow()` is modelled by an explicit clock value of type
  `Nat` passed to each operation that reads the clock;
* a raised Python exception is modelled by the `PyError` record (message and
  exception class name); fallible functions return `Except PyError _`;
* Python `dict` insertion order is modelled by association lists with
  insert-or-replace-in-place semantics (`dictInsert`);
* Python truthiness of an optional string / list (`if context:`,
  `if subagent.tools and tools:`) is modelled explicitly: `none`, `some ""`
  and `some []` are falsy, mirroring the source's `if` conditions.
-/

/-- A raised Python exception: `str(e)` and `type(e).__name__`. -/
structure PyError where
  message : String
  typeName : String
deriving Repr, DecidableEq

/-- One entry of `AgentSession.errors`, as built by `AgentSession.add_error`:
`{"error": str(error), "type": type(error).__name__, "context": context,
"timestamp": datetime.utcnow().isoformat()}`. -/
structure ErrorRecord where
  error : String
  typeName : String
  context : Option String
  timestamp : Nat
deriving Repr, DecidableEq

/-- `AgentSession` (session.py, lines 13–48): the fields tracked by the
pydantic model.  Timestamps are clock values (`Nat`); the metadata maps are
modelled as association lists of strings. -/
structure AgentSession where
  id : String
  agent_id : String
  claude_session_id : Option String
  task_id : Option String
  task_metadata : List (String × String)
  started_at : Nat
  ended_at : Option Nat
  status : String
  metadata : List (String × String)
  tasks_completed : Nat
  proposals_created : List String
  errors : List ErrorRecord
deriving Repr, DecidableEq

/-- A fresh session, with the field defaults of the pydantic model:
`ended_at = None`, `status = "active"`, `tasks_completed = 0`, empty
`proposals_created` and `errors`. -/
def mkSession (id agent_id : String) (started_at : Nat) : AgentSession :=
  { id := id
    agent_id := agent_id
    claude_session_id := none
    task_id := none
    task_metadata := []
    started_at := started_at
    ended_at := none
    status := "active"
    metadata := []
    tasks_completed := 0
    proposals_created := []
    errors := [] }

namespace AgentSession

/-- `AgentSession.add_proposal` (session.py 50–53): append the id unless it
is already present. -/
def add_proposal (s : AgentSession) (proposal_id : String) : AgentSession :=
  if proposal_id ∈ s.proposals_created then s
  else { s with proposals_created := s.proposals_created ++ [proposal_id] }

/-- `AgentSession.add_error` (session.py 55–62): always append a new record
with the error message, the exception class name, the given context and the
current time. -/
def add_error (s : AgentSession) (e : PyError) (context : Option String)
    (now : Nat) : AgentSession :=
  { s with errors := s.errors ++ [⟨e.message, e.typeName, context, now⟩] }

/-- `AgentSession.complete` (session.py 64–67): unconditionally set
`status = "completed"` and `ended_at = now`. -/
def complete (s : AgentSession) (now : Nat) : AgentSession :=
  { s with status := "completed", ended_at := some now }

/-- `AgentSession.fail` (session.py 69–74): unconditionally set
`status = "failed"` and `ended_at = now`; when an error is supplied, also
`add_error(error)` (so with context `None`). -/
def fail (s : AgentSession) (error : Option PyError) (now : Nat) :
    AgentSession :=
  let s' : AgentSession := { s with status := "failed", ended_at := some now }
  match error with
  | none => s'
  | some e => s'.add_error e none now

end AgentSession

/-- One call of the four public session mutators, with the clock value at
which it happens. -/
inductive SessionOp where
  | addProposal (proposal_id : String)
  | addError (e : PyError) (context : Option String)
  | complete
  | fail (error : Option PyError)
deriving Repr, DecidableEq

/-- Apply one mutator call to a session at clock value `now`. -/
def applyOp (s : AgentSession) : SessionOp × Nat → AgentSession
  | (SessionOp.addProposal pid, _) => s.add_proposal pid
  | (SessionOp.addError e ctx, now) => s.add_error e ctx now
  | (SessionOp.complete, now) => s.complete now
  | (SessionOp.fail e, now) => s.fail e now

/-- Run a sequence of timed mutator calls against a session. -/
def runOps (s : AgentSession) (ops : List (SessionOp × Nat)) : AgentSession :=
  ops.foldl applyOp s

/-- The status a session would have after `ops` if its status were `dflt`
before them: the status named by the last `complete`/`fail` in `ops`, else
`dflt`.  Spec-side description of how `status` evolves. -/
def lastCFStatus (dflt : String) : List (SessionOp × Nat) → String
  | [] => dflt
  | (SessionOp.complete, _) :: rest => lastCFStatus "completed" rest
  | (SessionOp.fail _, _) :: rest => lastCFStatus "failed" rest
  | _ :: rest => lastCFStatus dflt rest

/-! ## Subagent registry (subagents.py) -/

/-- `SubagentDefinition` (subagents.py 12–35).  `tools = none` means
"inherit all from parent"; the metadata map is omitted as no claim touches
it. -/
structure SubagentDefinition where
  name : String
  description : String
  system_prompt : String
  tools : Option (List String)
  model : Option String
deriving Repr, DecidableEq

/-- Python `dict` assignment `d[key] = value` on an insertion-ordered map of
subagent definitions keyed by `name`: replace in place when the key exists,
else append.  Models `self.subagents[definition.name] = definition`
(subagents.py 63). -/
def dictInsert (l : List SubagentDefinition) (d : SubagentDefinition) :
    List SubagentDefinition :=
  if l.any (fun x => x.name = d.name) then
    l.map (fun x => if x.name = d.name then d else x)
  else l ++ [d]

/-- Python `self.subagents.get(name)` (subagents.py 85): first (and, by the
`dictInsert` invariant, only) definition with the given name. -/
def dictGet (l : List SubagentDefinition) (name : String) :
    Option SubagentDefinition :=
  l.find? (fun x => x.name = name)

/-- Register a list of definitions in order into an empty registry
(`register` / `register_multiple`, subagents.py 56–73). -/
def registerAll (regs : List SubagentDefinition) : List SubagentDefinition :=
  regs.foldl dictInsert []

/-- Python `"\n".join(parts)`. -/
def joinNL : List String → String
  | [] => ""
  | [p] => p
  | p :: q :: rest => p ++ "\n" ++ joinNL (q :: rest)

/-- The `prompt_parts` list built by `get_delegation_prompt`
(subagents.py 108–119) when the registry is non-empty: two header lines,
then for every registered definition in order the part `"\n### {name}"`
followed by `"{description}\n"`, then the closing instruction line. -/
def delegationPromptParts (l : List SubagentDefinition) : List String :=
  ["\n## Available Subagents\n",
   "You can delegate tasks to specialized subagents:\n"]
  ++ l.flatMap (fun d => ["\n### " ++ d.name, d.description ++ "\n"])
  ++ ["\nTo delegate to a subagent, use the delegate_to_subagent tool."]

/-- `SubagentRegistry.get_delegation_prompt` (subagents.py 96–121): empty
string when no subagents are registered, else the newline-join of
`delegationPromptParts`. -/
def get_delegation_prompt (l : List SubagentDefinition) : String :=
  if l.isEmpty then "" else joinNL (delegationPromptParts l)

/-! ## Tools and the reasoning request (base.py) -/

/-- A Python tool dict as the callers pass it to `reason`: the three keys
`reason` reads (`name`, `description`, `input_schema`) plus any further
entries (e.g. the `function` key that `create_subagent_tool` adds), modelled
as an association list. -/
structure ToolDict where
  name : String
  description : String
  input_schema : String
  extra : List (String × String)
deriving Repr, DecidableEq

/-- The projection `reason` applies to each caller tool (base.py 256–263):
keep only `name`, `description` and `input_schema`, dropping every other
entry. -/
def projectTool (t : ToolDict) : ToolDict :=
  { name := t.name, description := t.description,
    input_schema := t.input_schema, extra := [] }

/-- A chat message `{"role": ..., "content": ...}`. -/
structure Message where
  role : String
  content : String
deriving Repr, DecidableEq

/-- The `request_params` dict `reason` passes to the provider call
(base.py 246–267): optional keys are `Option`s (`none` = key absent). -/
structure Request where
  model : String
  max_tokens : Nat
  messages : List Message
  system : Option String
  tools : Option (List ToolDict)
  resume : Option String
deriving Repr, DecidableEq

/-- Python truthiness of an optional string: `None` and `""` are falsy. -/
def strTruthy : Option String → Bool
  | none => false
  | some s => !s.isEmpty

/-- Python `a or b` on optional strings, in a position where the result is
used as a string (only evaluated under a guard making one operand truthy). -/
def pyOrStr (a b : Option String) : String :=
  if strTruthy a then a.getD "" else b.getD ""

/-- `BaseAgent.reason` (base.py 208–267), up to the provider call: the
`request_params` it builds from its arguments.  `default_system_prompt`
stands for `self._get_default_system_prompt()` (an `Option` because
subclasses may return `None`); `claude_session_id` stands for
`self._claude_session_id`. -/
def reason (model : String) (default_system_prompt : Option String)
    (claude_session_id : Option String) (task : String)
    (context : Option String) (system_prompt : Option String)
    (tools : Option (List ToolDict)) (max_tokens : Nat)
    (resume_session : Bool) : Request :=
  let messages :=
    (match context with
     | some c => if c.isEmpty then [] else
         [⟨"user", "**Relevant Context:**\n\n" ++ c⟩]
     | none => []) ++ [(⟨"user", task⟩ : Message)]
  { model := model
    max_tokens := max_tokens
    messages := messages
    system :=
      if strTruthy system_prompt || strTruthy default_system_prompt then
        some (pyOrStr system_prompt default_system_prompt)
      else none
    tools :=
      match tools with
      | some ts => if ts.isEmpty then none else some (ts.map projectTool)
      | none => none
    resume :=
      if resume_session && strTruthy claude_session_id then claude_session_id
      else none }

/-- The tool filtering of `BaseAgent._execute_subagent` (base.py 342–346):
`tools = kwargs.get("tools")`; `if subagent.tools and tools:` (Python
truthiness: `None` and `[]` are both falsy) keep only the caller tools whose
`name` is in the subagent's declared set, else pass `tools` through
unchanged. -/
def execute_subagent_tools (subagent : SubagentDefinition)
    (tools : Option (List ToolDict)) : Option (List ToolDict) :=
  match subagent.tools, tools with
  | some st, some ts =>
      if !st.isEmpty && !ts.isEmpty then
        some (ts.filter (fun t => st.contains t.name))
      else tools
  | _, _ => tools

/-- The arguments `BaseAgent._execute_subagent` (base.py 317–355) passes to
`self.reason`: the subagent's `system_prompt`, the filtered tools, the
caller's task/context, `max_tokens` defaulting to 4096.  (The computed
`model = subagent.model or self.model` is not forwarded by the source.) -/
structure ReasonArgs where
  task : String
  context : Option String
  system_prompt : Option String
  tools : Option (List ToolDict)
  max_tokens : Nat
deriving Repr, DecidableEq

/-- `BaseAgent._execute_subagent` (base.py 317–355) as the `reason` call it
performs. -/
def execute_subagent (subagent : SubagentDefinition) (task : String)
    (context : Option String) (kwargsTools : Option (List ToolDict))
    (kwargsMaxTokens : Option Nat) : ReasonArgs :=
  { task := task
    context := context
    system_prompt := some subagent.system_prompt
    tools := execute_subagent_tools subagent kwargsTools
    max_tokens := kwargsMaxTokens.getD 4096 }

/-! ## Delegation with hooks (subagents.py 132–179) -/

/-- The reasoning provider's successful response, kept abstract: only its
identity matters to the delegation logic. -/
structure Response where
  text : String
deriving Repr, DecidableEq

/-- The argument triple `(subagent_name, task, result)` a delegation hook is
invoked with (subagents.py 173). -/
structure HookCall where
  subagent_name : String
  task : String
  result : Response
deriving Repr, DecidableEq

/-- A delegation hook: may return normally or raise. -/
def Hook : Type := HookCall → Except PyError Unit

/-- The exception `delegate` raises for an unregistered name
(subagents.py 155–156): `ValueError(f"Subagent '{name}' not found")` — the
error the spec's taxonomy calls `UnknownSubagentError`. -/
def subagentNotFound (name : String) : PyError :=
  ⟨"Subagent '" ++ name ++ "' not found", "ValueError"⟩

/-- `SubagentRegistry.delegate` (subagents.py 132–179).  `reasonFn` stands
for the awaited `parent_agent._execute_subagent` call: it receives the
resolved definition and the parent's session and returns the reasoning
outcome together with the (possibly mutated) session — `reason` records a
`"reasoning"`-context error into the session when the provider call raises.
The result is the delegation outcome, the observable trace of hook
invocations (each hook's argument triple and its own outcome; a raising hook
is caught and logged, so the loop continues and the traced error never
escapes), and the final session. -/
def delegate (registry : List SubagentDefinition) (hooks : List Hook)
    (reasonFn : SubagentDefinition → AgentSession →
      Except PyError Response × AgentSession)
    (subagent_name task : String) (s : AgentSession) :
    (Except PyError Response × List (HookCall × Except PyError Unit))
      × AgentSession :=
  match dictGet registry subagent_name with
  | none => ((Except.error (subagentNotFound subagent_name), []), s)
  | some subagent =>
    match reasonFn subagent s with
    | (Except.error e, s') => ((Except.error e, []), s')
    | (Except.ok result, s') =>
      ((Except.ok result,
        hooks.map (fun h =>
          ((⟨subagent_name, task, result⟩ : HookCall),
           h ⟨subagent_name, task, result⟩))), s')

/-! ## `BaseAgent.autonomous_loop` (base.py 386–430) -/

/-- One entry of the list `autonomous_loop` returns: the task's result on
success, or the error marker `{"error": str(e)}` when `execute` raised. -/
inductive TaskResult where
  | ok (r : Response)
  | errMarker (message : String)
deriving Repr, DecidableEq

/-- Whether a `TaskResult` is a success. -/
def TaskResult.isOk : TaskResult → Bool
  | TaskResult.ok _ => true
  | TaskResult.errMarker _ => false

/-- The body of the `for i, task in enumerate(tasks)` loop
(base.py 409–424): `exec i task s` stands for the awaited
`self.execute(task)` with the session state `s` (the abstract `execute` may
mutate the session, so it returns the outcome and the new session).  On
success the result is appended and `tasks_completed` incremented; on an
exception the error is recorded with context `f"task_{i+1}"` and the marker
appended; the loop never stops early.  `clock` advances by one per
clock read. -/
def autonomous_loop_go
    (exec : Nat → String → AgentSession → Except PyError Response × AgentSession)
    (i : Nat) (tasks : List String) (s : AgentSession) (clock : Nat) :
    List TaskResult × AgentSession × Nat :=
  match tasks with
  | [] => ([], s, clock)
  | t :: rest =>
    match exec i t s with
    | (Except.ok r, s') =>
      let s'' : AgentSession :=
        { s' with tasks_completed := s'.tasks_completed + 1 }
      let k := autonomous_loop_go exec (i + 1) rest s'' clock
      (TaskResult.ok r :: k.1, k.2)
    | (Except.error e, s') =>
      let s'' := s'.add_error e (some ("task_" ++ toString (i + 1))) clock
      let k := autonomous_loop_go exec (i + 1) rest s'' (clock + 1)
      (TaskResult.errMarker e.message :: k.1, k.2)

/-- `BaseAgent.autonomous_loop` (base.py 386–430): run every task in order
against `execute`, then unconditionally `complete()` the session.  `s0` is
the session current when the loop starts (started fresh by the source when
absent); the inter-task `asyncio.sleep` has no state effect and is not
modelled. -/
def autonomous_loop
    (exec : Nat → String → AgentSession → Except PyError Response × AgentSession)
    (tasks : List String) (s0 : AgentSession) (clock : Nat) :
    List TaskResult × AgentSession :=
  let k := autonomous_loop_go exec 0 tasks s0 clock
  (k.1, k.2.1.complete k.2.2)

/-! ## `YarnnnClient.wait_for_approval` (client.py 298–332) -/

/-- The timeout exception (client.py 332):
`TimeoutError(f"Proposal {proposal_id} not approved within {timeout}s")` —
the error the spec's taxonomy calls `ApprovalTimeoutError`. -/
def approvalTimeout (proposal_id : String) (timeout : Nat) : PyError :=
  ⟨"Proposal " ++ proposal_id ++ " not approved within " ++
    toString timeout ++ "s", "TimeoutError"⟩

/-- The `while elapsed < timeout` loop of `wait_for_approval`
(client.py 321–330).  `getStatus j` is the status string the backend reports
at the `j`-th poll (`await self.get_proposal(...)`, a read-only request);
`elapsed` increases by `poll_interval` after each pending poll, exactly as in
the source.  The positivity hypothesis `hp` reflects that the source loop
terminates only for a positive poll interval. -/
def wait_loop (getStatus : Nat → String) (proposal_id : String)
    (timeout poll_interval : Nat) (hp : 0 < poll_interval)
    (elapsed j : Nat) : Except PyError Bool :=
  if h : elapsed < timeout then
    if getStatus j = "APPROVED" ∨ getStatus j = "COMMITTED" then Except.ok true
    else if getStatus j = "REJECTED" then Except.ok false
    else wait_loop getStatus proposal_id timeout poll_interval hp
      (elapsed + poll_interval) (j + 1)
  else Except.error (approvalTimeout proposal_id timeout)
termination_by timeout - elapsed
decreasing_by omega

/-- `YarnnnClient.wait_for_approval` (client.py 298–332): start the polling
loop with `elapsed = 0` at the first poll. -/
def wait_for_approval (getStatus : Nat → String) (proposal_id : String)
    (timeout poll_interval : Nat) (hp : 0 < poll_interval) :
    Except PyError Bool :=
  wait_loop getStatus proposal_id timeout poll_interval hp 0 0

/-! ## First-occurrence order (spec-side description for C7 and C9) -/

/-- One `add_proposal`-style insertion on a bare list of strings. -/
def insertNew (l : List String) (x : String) : List String :=
  if x ∈ l then l else l ++ [x]

/-- Keep the first occurrence of every element not already in `seen`, in
order.  Spec-side description (`Modelled from the spec`: "each distinct id
exactly once ... in first-insertion order"). -/
def firstOccAux (seen : List String) : List String → List String
  | [] => []
  | x :: xs =>
    if x ∈ seen then firstOccAux seen xs
    else x :: firstOccAux (x :: seen) xs

/-- The distinct elements of a list, each at its first occurrence. -/
def firstOccurrences (l : List String) : List String := firstOccAux [] l

lemma firstOccAux_congr (s₁ s₂ : List String)
    (h : ∀ y, y ∈ s₁ ↔ y ∈ s₂) :
    ∀ l, firstOccAux s₁ l = firstOccAux s₂ l := by
  intro l
  induction l generalizing s₁ s₂ with
  | nil => rfl
  | cons x xs ih =>
    simp only [firstOccAux]
    by_cases hx : x ∈ s₁
    · rw [if_pos hx, if_pos ((h x).mp hx)]
      exact ih s₁ s₂ h
    · rw [if_neg hx, if_neg (fun hc => hx ((h x).mpr hc))]
      congr 1
      refine ih (x :: s₁) (x :: s₂) ?_
      intro y
      simp only [List.mem_cons]
      exact or_congr Iff.rfl (h y)

lemma foldl_insertNew_eq (l : List String) :
    ∀ acc : List String,
      l.foldl insertNew acc = acc ++ firstOccAux acc l := by
  induction l with
  | nil => intro acc; simp [firstOccAux]
  | cons x xs ih =>
    intro acc
    simp only [List.foldl_cons, firstOccAux, insertNew]
    by_cases hx : x ∈ acc
    · rw [if_pos hx, if_pos hx, ih acc]
    · rw [if_neg hx, if_neg hx, ih (acc ++ [x])]
      have hcongr : firstOccAux (acc ++ [x]) xs = firstOccAux (x :: acc) xs :=
        firstOccAux_congr _ _ (by intro y; simp [List.mem_append, or_comm]) xs
      rw [hcongr, List.append_assoc]
      rfl

lemma mem_firstOccAux (seen l : List String) (y : String) :
    y ∈ firstOccAux seen l ↔ y ∈ l ∧ y ∉ seen := by
  induction l generalizing seen with
  | nil => simp [firstOccAux]
  | cons x xs ih =>
    simp only [firstOccAux]
    by_cases hx : x ∈ seen
    · rw [if_pos hx, ih seen]
      simp only [List.mem_cons]
      constructor
      · rintro ⟨hy, hns⟩; exact ⟨Or.inr hy, hns⟩
      · rintro ⟨hy | hy, hns⟩
        · exact absurd (hy ▸ hx) hns
        · exact ⟨hy, hns⟩
    · rw [if_neg hx]
      simp only [List.mem_cons, ih (x :: seen), List.mem_cons]
      constructor
      · rintro (hy | ⟨hy, hns⟩)
        · exact ⟨Or.inl hy, hy ▸ hx⟩
        · exact ⟨Or.inr hy, fun hc => hns (Or.inr hc)⟩
      · rintro ⟨hy | hy, hns⟩
        · exact Or.inl hy
        · by_cases hyx : y = x
          · exact Or.inl hyx
          · exact Or.inr ⟨hy, fun hc => hns (hc.resolve_left hyx)⟩

lemma nodup_firstOccAux (seen l : List String) :
    (firstOccAux seen l).Nodup := by
  induction l generalizing seen with
  | nil => simp [firstOccAux]
  | cons x xs ih =>
    simp only [firstOccAux]
    by_cases hx : x ∈ seen
    · rw [if_pos hx]; exact ih seen
    · rw [if_neg hx]
      refine List.nodup_cons.mpr ⟨?_, ih (x :: seen)⟩
      intro hc
      exact ((mem_firstOccAux (x :: seen) xs x).mp hc).2 (List.mem_cons_self x _)

/-! ## Session lemmas -/

/-- Running `add_proposal` over a list of ids acts on `proposals_created`
exactly as `insertNew` folded over the bare string list. -/
lemma addProposals_proposals (ids : List String) :
    ∀ s : AgentSession,
      (ids.foldl AgentSession.add_proposal s).proposals_created =
        ids.foldl insertNew s.proposals_created := by
  induction ids with
  | nil => intro s; rfl
  | cons x xs ih =>
    intro s
    have hstep : (s.add_proposal x).proposals_created =
        insertNew s.proposals_created x := by
      simp only [AgentSession.add_proposal, insertNew]
      split <;> rfl
    simp only [List.foldl_cons, ih (s.add_proposal x), hstep]

/-- `add_proposal` leaves `status` unchanged. -/
lemma add_proposal_status (s : AgentSession) (pid : String) :
    (s.add_proposal pid).status = s.status := by
  simp only [AgentSession.add_proposal]; split <;> rfl

/-- `add_proposal` leaves `ended_at` unchanged. -/
lemma add_proposal_ended_at (s : AgentSession) (pid : String) :
    (s.add_proposal pid).ended_at = s.ended_at := by
  simp only [AgentSession.add_proposal]; split <;> rfl

/-- `fail` always sets `status = "failed"`. -/
lemma fail_status (s : AgentSession) (e : Option PyError) (now : Nat) :
    (s.fail e now).status = "failed" := by
  cases e <;> rfl

/-- `fail` always sets `ended_at = some now`. -/
lemma fail_ended_at (s : AgentSession) (e : Option PyError) (now : Nat) :
    (s.fail e now).ended_at = some now := by
  cases e <;> rfl

/-- After any run of mutator calls, `status` is the status named by the last
`complete`/`fail` call, or the starting status when there is none. -/
lemma runOps_status (ops : List (SessionOp × Nat)) :
    ∀ s : AgentSession, (runOps s ops).status = lastCFStatus s.status ops := by
  induction ops with
  | nil => intro s; rfl
  | cons op rest ih =>
    intro s
    match op with
    | (SessionOp.addProposal pid, now) =>
      show (runOps (s.add_proposal pid) rest).status = _
      rw [ih (s.add_proposal pid), add_proposal_status]
      rfl
    | (SessionOp.addError e ctx, now) =>
      show (runOps (s.add_error e ctx now) rest).status = _
      rw [ih (s.add_error e ctx now)]
      rfl
    | (SessionOp.complete, now) =>
      show (runOps (s.complete now) rest).status = _
      rw [ih (s.complete now)]
      rfl
    | (SessionOp.fail e, now) =>
      show (runOps (s.fail e now) rest).status = _
      rw [ih (s.fail e now), fail_status]
      rfl

/-- `lastCFStatus` only ever produces the starting status, `"completed"` or
`"failed"`. -/
lemma lastCFStatus_cases (ops : List (SessionOp × Nat)) :
    ∀ dflt : String, lastCFStatus dflt ops = dflt ∨
      lastCFStatus dflt ops = "completed" ∨
      lastCFStatus dflt ops = "failed" := by
  induction ops with
  | nil => intro dflt; exact Or.inl rfl
  | cons op rest ih =>
    intro dflt
    match op with
    | (SessionOp.addProposal pid, now) => exact ih dflt
    | (SessionOp.addError e ctx, now) => exact ih dflt
    | (SessionOp.complete, now) =>
      rcases ih "completed" with h | h | h
      · exact Or.inr (Or.inl h)
      · exact Or.inr (Or.inl h)
      · exact Or.inr (Or.inr h)
    | (SessionOp.fail e, now) =>
      rcases ih "failed" with h | h | h
      · exact Or.inr (Or.inr h)
      · exact Or.inr (Or.inl h)
      · exact Or.inr (Or.inr h)

/-- The lifecycle invariant: the end timestamp is set exactly when the
status left `"active"`. -/
def SessionInv (s : AgentSession) : Prop :=
  (s.ended_at = none ↔ s.status = "active") ∧
  (s.status = "active" ∨ s.status = "completed" ∨ s.status = "failed")

lemma sessionInv_mk (id agent : String) (t : Nat) :
    SessionInv (mkSession id agent t) := by
  constructor
  · simp [mkSession]
  · exact Or.inl rfl

lemma sessionInv_applyOp (s : AgentSession) (opn : SessionOp × Nat)
    (h : SessionInv s) : SessionInv (applyOp s opn) := by
  obtain ⟨h1, h2⟩ := h
  match opn with
  | (SessionOp.addProposal pid, now) =>
    show SessionInv (s.add_proposal pid)
    exact ⟨by rw [add_proposal_ended_at, add_proposal_status]; exact h1,
      by rw [add_proposal_status]; exact h2⟩
  | (SessionOp.addError e ctx, now) =>
    show SessionInv (s.add_error e ctx now)
    exact ⟨h1, h2⟩
  | (SessionOp.complete, now) =>
    show SessionInv (s.complete now)
    refine ⟨?_, Or.inr (Or.inl rfl)⟩
    show (some now = none ↔ "completed" = "active")
    simp
  | (SessionOp.fail e, now) =>
    show SessionInv (s.fail e now)
    refine ⟨?_, Or.inr (Or.inr (fail_status s e now))⟩
    rw [fail_ended_at, fail_status]
    simp

lemma sessionInv_runOps (ops : List (SessionOp × Nat)) :
    ∀ s : AgentSession, SessionInv s → SessionInv (runOps s ops) := by
  induction ops with
  | nil => intro s h; exact h
  | cons op rest ih =>
    intro s h
    exact ih (applyOp s op) (sessionInv_applyOp s op h)

/-! ## Claim theorems: session lifecycle -/

/-- **C1, counterexample.**  The claim says a session never leaves a
terminal state, but `fail` after `complete` moves the status from the
terminal `"completed"` to `"failed"`: the call sequence
`[complete, fail]` is reachable (both are public mutators with no guard),
and after its first step the status is `"completed"` while after the second
it is `"failed"`. -/
theorem session_terminal_escape_counterexample :
    (runOps (mkSession "session_1" "agent_1" 0)
        [(SessionOp.complete, 1)]).status = "completed" ∧
    (runOps (mkSession "session_1" "agent_1" 0)
        [(SessionOp.complete, 1), (SessionOp.fail none, 2)]).status =
      "failed" :=
  ⟨rfl, rfl⟩

/-- **C1 (amended).**  For every reachable sequence of the operations
`add_proposal`, `add_error`, `complete`, `fail` on a fresh session: the
status is always one of `"active"`, `"completed"`, `"failed"`; it equals the
status named by the *last* `complete`/`fail` call (`"active"` when there is
none) — so it changes only at `complete`/`fail` calls, but a later
`complete`/`fail` call *does* overwrite a terminal state (the source has no
guard); and `ended_at` is non-null iff the status is not `"active"`. -/
theorem session_status_lifecycle (id agent : String) (t : Nat)
    (ops : List (SessionOp × Nat)) :
    ((runOps (mkSession id agent t) ops).status = "active" ∨
      (runOps (mkSession id agent t) ops).status = "completed" ∨
      (runOps (mkSession id agent t) ops).status = "failed") ∧
    (runOps (mkSession id agent t) ops).status = lastCFStatus "active" ops ∧
    ((runOps (mkSession id agent t) ops).ended_at ≠ none ↔
      (runOps (mkSession id agent t) ops).status ≠ "active") := by
  have hinv := sessionInv_runOps ops (mkSession id agent t)
    (sessionInv_mk id agent t)
  refine ⟨hinv.2, ?_, ?_⟩
  · have := runOps_status ops (mkSession id agent t)
    simpa [mkSession] using this
  · have h1 := hinv.1
    constructor
    · intro hne hact
      exact hne (h1.mpr hact)
    · intro hne
      intro hnone
      exact hne (h1.mp hnone)

/-- **C7.**  For every sequence of `add_proposal` calls on a fresh session,
`proposals_created` lists each distinct id exactly once, at its first
insertion position, in first-insertion order: it equals `firstOccurrences`
of the call sequence, has no duplicates, and has exactly the ids that were
ever passed. -/
theorem add_proposal_idempotent_first_order (id agent : String) (t : Nat)
    (ids : List String) :
    (ids.foldl AgentSession.add_proposal
        (mkSession id agent t)).proposals_created = firstOccurrences ids ∧
    (ids.foldl AgentSession.add_proposal
        (mkSession id agent t)).proposals_created.Nodup ∧
    (∀ x, x ∈ (ids.foldl AgentSession.add_proposal
        (mkSession id agent t)).proposals_created ↔ x ∈ ids) := by
  have hps : (ids.foldl AgentSession.add_proposal
      (mkSession id agent t)).proposals_created = firstOccurrences ids := by
    rw [addProposals_proposals ids (mkSession id agent t)]
    show ids.foldl insertNew [] = firstOccurrences ids
    rw [foldl_insertNew_eq ids []]
    rfl
  refine ⟨hps, ?_, ?_⟩
  · rw [hps]; exact nodup_firstOccAux [] ids
  · intro x
    rw [hps]
    unfold firstOccurrences
    rw [mem_firstOccAux [] ids x]
    simp

/-- **C10.**  `fail` mutates only `status` (to `"failed"`), `ended_at` (to
the current time) and — exactly when an error argument is supplied —
appends exactly one record to `errors`, with context `None`; every other
field is unchanged.  (`fail` is a total function of the embedding: it never
raises.) -/
theorem fail_frame (s : AgentSession) (e : Option PyError) (now : Nat) :
    (s.fail e now).status = "failed" ∧
    (s.fail e now).ended_at = some now ∧
    (e = none → (s.fail e now).errors = s.errors) ∧
    (∀ err, e = some err → (s.fail e now).errors =
      s.errors ++ [⟨err.message, err.typeName, none, now⟩]) ∧
    (s.fail e now).id = s.id ∧
    (s.fail e now).agent_id = s.agent_id ∧
    (s.fail e now).claude_session_id = s.claude_session_id ∧
    (s.fail e now).task_id = s.task_id ∧
    (s.fail e now).task_metadata = s.task_metadata ∧
    (s.fail e now).started_at = s.started_at ∧
    (s.fail e now).metadata = s.metadata ∧
    (s.fail e now).tasks_completed = s.tasks_completed ∧
    (s.fail e now).proposals_created = s.proposals_created := by
  cases e with
  | none =>
    refine ⟨rfl, rfl, fun _ => rfl, fun err herr => ?_, rfl, rfl, rfl, rfl,
      rfl, rfl, rfl, rfl, rfl⟩
    cases herr
  | some err =>
    refine ⟨rfl, rfl, fun hn => ?_, fun err' herr => ?_, rfl, rfl, rfl, rfl,
      rfl, rfl, rfl, rfl, rfl⟩
    · cases hn
    · cases herr; rfl

/-- **C10, witness.**  `fail` at a concrete session and error: the record
appended has context `none` and the untouched fields keep their values. -/
theorem fail_frame_witness :
    ((mkSession "s0" "a0" 0).fail (some ⟨"boom", "RuntimeError"⟩) 7).errors =
      [⟨"boom", "RuntimeError", none, 7⟩] ∧
    ((mkSession "s0" "a0" 0).fail (some ⟨"boom", "RuntimeError"⟩) 7).status =
      "failed" := by
  have h := fail_frame (mkSession "s0" "a0" 0)
    (some ⟨"boom", "RuntimeError"⟩) 7
  refine ⟨?_, h.1⟩
  have := h.2.2.2.1 ⟨"boom", "RuntimeError"⟩ rfl
  simpa [mkSession] using this

/-! ## Registry lemmas -/

/-- Replacing the definition stored under `d.name` does not change the name
sequence of the registry. -/
lemma name_replaceMap (l : List SubagentDefinition) (d : SubagentDefinition) :
    (l.map (fun x => if x.name = d.name then d else x)).map (fun x => x.name)
      = l.map (fun x => x.name) := by
  induction l with
  | nil => rfl
  | cons x rest ih =>
    by_cases hx : x.name = d.name
    · simp only [List.map_cons, if_pos hx, ih, hx]
      simp
    · simp only [List.map_cons, if_neg hx, ih]

/-- `dictInsert` acts on the name sequence exactly as `insertNew`. -/
lemma map_name_dictInsert (l : List SubagentDefinition)
    (d : SubagentDefinition) :
    (dictInsert l d).map (fun x => x.name)
      = insertNew (l.map (fun x => x.name)) d.name := by
  unfold dictInsert insertNew
  by_cases hmem : l.any (fun x => x.name = d.name) = true
  · rw [if_pos hmem, name_replaceMap]
    have hd : d.name ∈ l.map (fun x => x.name) := by
      rcases List.any_eq_true.mp hmem with ⟨x, hx, hxd⟩
      exact List.mem_map.mpr ⟨x, hx, of_decide_eq_true hxd⟩
    rw [if_pos hd]
  · rw [if_neg hmem]
    have hd : d.name ∉ l.map (fun x => x.name) := by
      intro hc
      rcases List.mem_map.mp hc with ⟨x, hx, hxd⟩
      exact hmem (List.any_eq_true.mpr ⟨x, hx, decide_eq_true hxd⟩)
    rw [if_neg hd, List.map_append]
    rfl

/-- Folding registrations acts on the name sequence as folding
`insertNew`. -/
lemma map_name_foldl_dictInsert (regs : List SubagentDefinition) :
    ∀ acc : List SubagentDefinition,
      ((regs.foldl dictInsert acc).map (fun x => x.name))
        = (regs.map (fun x => x.name)).foldl insertNew
            (acc.map (fun x => x.name)) := by
  induction regs with
  | nil => intro acc; rfl
  | cons d rest ih =>
    intro acc
    simp only [List.foldl_cons, List.map_cons]
    rw [ih (dictInsert acc d), map_name_dictInsert]

/-- The registry built by a sequence of `register` calls lists the distinct
names in first-registration order. -/
lemma registerAll_names (regs : List SubagentDefinition) :
    (registerAll regs).map (fun x => x.name)
      = firstOccurrences (regs.map (fun x => x.name)) := by
  unfold registerAll
  rw [map_name_foldl_dictInsert regs []]
  show (regs.map (fun x => x.name)).foldl insertNew [] = _
  rw [foldl_insertNew_eq]
  rfl

/-- The last definition registered under a given name (spec-side helper:
"duplicate names silently replace the previous definition"). -/
def lastDefWith : List SubagentDefinition → String → Option SubagentDefinition
  | [], _ => none
  | d :: rest, n =>
    match lastDefWith rest n with
    | some d' => some d'
    | none => if d.name = n then some d else none

/-- Looking up a name in a registry after replacing the entry under
`d.name`, for a different name, is unchanged. -/
lemma dictGet_replaceMap (l : List SubagentDefinition)
    (d : SubagentDefinition) (n : String) (hne : d.name ≠ n) :
    dictGet (l.map (fun x => if x.name = d.name then d else x)) n
      = dictGet l n := by
  induction l with
  | nil => rfl
  | cons x rest ih =>
    by_cases hx : x.name = d.name
    · simp only [dictGet, List.map_cons, if_pos hx, List.find?] at ih ⊢
      have h1 : (decide (d.name = n)) = false := decide_eq_false hne
      have h2 : (decide (x.name = n)) = false :=
        decide_eq_false (fun hc => hne (hx ▸ hc))
      rw [h1, h2]
      exact ih
    · simp only [dictGet, List.map_cons, if_neg hx, List.find?] at ih ⊢
      cases hdec : decide (x.name = n) with
      | true => rfl
      | false => exact ih

/-- Looking up `d.name` after replacing the entry under `d.name` yields `d`,
provided some entry carried that name. -/
lemma dictGet_replaceMap_eq (l : List SubagentDefinition)
    (d : SubagentDefinition)
    (hmem : l.any (fun x => x.name = d.name) = true) :
    dictGet (l.map (fun x => if x.name = d.name then d else x)) d.name
      = some d := by
  induction l with
  | nil => simp at hmem
  | cons x rest ih =>
    by_cases hx : x.name = d.name
    · simp only [dictGet, List.map_cons, if_pos hx, List.find?,
        decide_eq_true (Eq.refl d.name)]
      rfl
    · have hmem' : rest.any (fun x => x.name = d.name) = true := by
        rcases List.any_eq_true.mp hmem with ⟨y, hy, hyd⟩
        rcases List.mem_cons.mp hy with h | h
        · exact absurd (of_decide_eq_true hyd) (h ▸ hx)
        · exact List.any_eq_true.mpr ⟨y, h, hyd⟩
      simp only [dictGet, List.map_cons, if_neg hx, List.find?]
      rw [decide_eq_false (fun hc : x.name = d.name => hx hc)]
      exact ih hmem'

/-- Looking up in `l ++ [d]`: the appended entry is found only when nothing
in `l` matches. -/
lemma dictGet_append_one (l : List SubagentDefinition)
    (d : SubagentDefinition) (n : String) :
    dictGet (l ++ [d]) n =
      match dictGet l n with
      | some x => some x
      | none => if d.name = n then some d else none := by
  induction l with
  | nil =>
    show dictGet [d] n = _
    simp only [dictGet, List.find?]
    by_cases hd : d.name = n
    · rw [decide_eq_true hd, if_pos hd]
    · rw [decide_eq_false hd, if_neg hd]
  | cons x rest ih =>
    simp only [dictGet, List.cons_append, List.find?] at ih ⊢
    cases hdec : decide (x.name = n) with
    | true => rfl
    | false => exact ih

/-- Python `dict` assignment then lookup: the new definition wins under its
own key, every other key is untouched. -/
lemma dictGet_dictInsert (acc : List SubagentDefinition)
    (d : SubagentDefinition) (n : String) :
    dictGet (dictInsert acc d) n
      = if d.name = n then some d else dictGet acc n := by
  unfold dictInsert
  by_cases hmem : acc.any (fun x => x.name = d.name) = true
  · rw [if_pos hmem]
    by_cases hdn : d.name = n
    · rw [if_pos hdn]
      subst hdn
      exact dictGet_replaceMap_eq acc d hmem
    · rw [if_neg hdn]
      exact dictGet_replaceMap acc d n hdn
  · rw [if_neg hmem, dictGet_append_one]
    by_cases hdn : d.name = n
    · have hnone : dictGet acc n = none := by
        unfold dictGet
        rw [List.find?_eq_none]
        intro x hx hpx
        exact hmem (List.any_eq_true.mpr
          ⟨x, hx, decide_eq_true (hdn ▸ of_decide_eq_true hpx)⟩)
      simp only [hnone, if_pos hdn]
    · simp only [if_neg hdn]
      cases hacc : dictGet acc n with
      | none => rfl
      | some x => rfl

/-- Lookup in the registry built from a registration sequence returns the
last definition registered under the name. -/
lemma dictGet_registerAll_aux (regs : List SubagentDefinition) (n : String) :
    ∀ acc : List SubagentDefinition,
      dictGet (regs.foldl dictInsert acc) n
        = match lastDefWith regs n with
          | some d => some d
          | none => dictGet acc n := by
  induction regs with
  | nil => intro acc; rfl
  | cons d rest ih =>
    intro acc
    simp only [List.foldl_cons, lastDefWith]
    rw [ih (dictInsert acc d), dictGet_dictInsert]
    cases lastDefWith rest n with
    | some d' => rfl
    | none =>
      by_cases hdn : d.name = n
      · simp only [if_pos hdn]
      · simp only [if_neg hdn]

/-- `firstOccurrences` of a non-empty list is non-empty. -/
lemma firstOccurrences_ne_nil (x : String) (xs : List String) :
    firstOccurrences (x :: xs) ≠ [] := by
  unfold firstOccurrences firstOccAux
  rw [if_neg (List.not_mem_nil x)]
  exact List.cons_ne_nil _ _

/-- `joinNL` of a non-empty list is at least as long as its head. -/
lemma joinNL_length_ge (p : String) (rest : List String) :
    p.length ≤ (joinNL (p :: rest)).length := by
  cases rest with
  | nil => exact Nat.le_refl _
  | cons q rest' =>
    show p.length ≤ (p ++ "\n" ++ joinNL (q :: rest')).length
    simp only [String.length_append]
    omega

/-! ## Loop lemmas (C3) -/

/-- The result entry the loop body appends for one task outcome: the result
on success, the `{"error": str(e)}` marker on an exception. -/
def resultOfOutcome : Except PyError Response → TaskResult
  | Except.ok r => TaskResult.ok r
  | Except.error e => TaskResult.errMarker e.message

/-- The error contexts the loop records for the failed tasks among
`results`, when the first listed task has index `i`: `"task_{i+1}"` for each
marker, in order. -/
def errorContextsFrom (i : Nat) : List TaskResult → List (Option String)
  | [] => []
  | TaskResult.ok _ :: rest => errorContextsFrom (i + 1) rest
  | TaskResult.errMarker _ :: rest =>
    some ("task_" ++ toString (i + 1)) :: errorContextsFrom (i + 1) rest

lemma autonomous_loop_go_length
    (exec : Nat → String → AgentSession → Except PyError Response × AgentSession)
    (tasks : List String) :
    ∀ i s c, (autonomous_loop_go exec i tasks s c).1.length = tasks.length := by
  induction tasks with
  | nil => intro i s c; rfl
  | cons t rest ih =>
    intro i s c
    simp only [autonomous_loop_go]
    cases hE : exec i t s with
    | mk res s' =>
      cases res with
      | ok r => simp only [List.length_cons, ih]
      | error e => simp only [List.length_cons, ih]

lemma autonomous_loop_go_tasks_completed
    (exec : Nat → String → AgentSession → Except PyError Response × AgentSession)
    (hexec : ∀ i t s, ((exec i t s).2).tasks_completed = s.tasks_completed)
    (tasks : List String) :
    ∀ i s c,
      ((autonomous_loop_go exec i tasks s c).2.1).tasks_completed =
        s.tasks_completed +
          ((autonomous_loop_go exec i tasks s c).1).countP
            (fun r => TaskResult.isOk r) := by
  induction tasks with
  | nil => intro i s c; simp [autonomous_loop_go]
  | cons t rest ih =>
    intro i s c
    simp only [autonomous_loop_go]
    cases hE : exec i t s with
    | mk res s' =>
      have hs' : s'.tasks_completed = s.tasks_completed := by
        have := hexec i t s
        rw [hE] at this
        exact this
      cases res with
      | ok r =>
        show (autonomous_loop_go exec (i + 1) rest
            { s' with tasks_completed := s'.tasks_completed + 1 }
            c).2.1.tasks_completed =
          s.tasks_completed + List.countP (fun r => TaskResult.isOk r)
            (TaskResult.ok r :: (autonomous_loop_go exec (i + 1) rest
              { s' with tasks_completed := s'.tasks_completed + 1 } c).1)
        rw [ih, List.countP_cons]
        simp only [TaskResult.isOk, hs', if_true]
        omega
      | error e =>
        show (autonomous_loop_go exec (i + 1) rest
            (s'.add_error e (some ("task_" ++ toString (i + 1))) c)
            (c + 1)).2.1.tasks_completed =
          s.tasks_completed + List.countP (fun r => TaskResult.isOk r)
            (TaskResult.errMarker e.message ::
              (autonomous_loop_go exec (i + 1) rest
                (s'.add_error e (some ("task_" ++ toString (i + 1))) c)
                (c + 1)).1)
        rw [ih, List.countP_cons]
        simp only [TaskResult.isOk, AgentSession.add_error, hs',
          Bool.false_eq_true, if_false]
        omega

lemma autonomous_loop_go_errors
    (exec : Nat → String → AgentSession → Except PyError Response × AgentSession)
    (hexec : ∀ i t s, ((exec i t s).2).errors = s.errors)
    (tasks : List String) :
    ∀ i s c,
      ((autonomous_loop_go exec i tasks s c).2.1).errors.map
          (fun r => r.context) =
        s.errors.map (fun r => r.context) ++
          errorContextsFrom i ((autonomous_loop_go exec i tasks s c).1) := by
  induction tasks with
  | nil => intro i s c; simp [autonomous_loop_go, errorContextsFrom]
  | cons t rest ih =>
    intro i s c
    simp only [autonomous_loop_go]
    cases hE : exec i t s with
    | mk res s' =>
      have hs' : s'.errors = s.errors := by
        have := hexec i t s
        rw [hE] at this
        exact this
      cases res with
      | ok r =>
        simp only [errorContextsFrom]
        rw [ih]
        simp only [hs']
      | error e =>
        simp only [errorContextsFrom]
        rw [ih]
        simp only [AgentSession.add_error, hs', List.map_append]
        simp

lemma autonomous_loop_go_results_pure
    (exec : Nat → String → AgentSession → Except PyError Response × AgentSession)
    (sref : AgentSession)
    (hpure : ∀ i t s, (exec i t s).1 = (exec i t sref).1)
    (tasks : List String) :
    ∀ i s c,
      (autonomous_loop_go exec i tasks s c).1 =
        (tasks.enumFrom i).map
          (fun p => resultOfOutcome (exec p.1 p.2 sref).1) := by
  induction tasks with
  | nil => intro i s c; rfl
  | cons t rest ih =>
    intro i s c
    simp only [autonomous_loop_go, List.enumFrom, List.map_cons]
    have houtcome : (exec i t s).1 = (exec i t sref).1 := hpure i t s
    cases hE : exec i t s with
    | mk res s' =>
      rw [hE] at houtcome
      cases res with
      | ok r =>
        simp only [ih, resultOfOutcome]
        rw [← houtcome]
      | error e =>
        simp only [ih, resultOfOutcome]
        rw [← houtcome]

/-! ## Polling lemmas (C4) -/

lemma wait_loop_timeout (getStatus : Nat → String) (pid : String)
    (timeout p : Nat) (hp : 0 < p)
    (hpend : ∀ j, j * p < timeout → getStatus j = "PENDING") :
    ∀ k j, timeout - j * p ≤ k →
      wait_loop getStatus pid timeout p hp (j * p) j =
        Except.error (approvalTimeout pid timeout) := by
  intro k
  induction k with
  | zero =>
    intro j hk
    unfold wait_loop
    rw [dif_neg (by omega)]
  | succ k ih =>
    intro j hk
    by_cases h : j * p < timeout
    · unfold wait_loop
      rw [dif_pos h, hpend j h, if_neg (by decide), if_neg (by decide)]
      have hexp : j * p + p = (j + 1) * p := by ring
      rw [hexp]
      apply ih
      have hexp2 : (j + 1) * p = j * p + p := by ring
      omega
    · unfold wait_loop
      rw [dif_neg h]

lemma wait_loop_reach (getStatus : Nat → String) (pid : String)
    (timeout p : Nat) (hp : 0 < p) (j₀ : Nat) (hlt : j₀ * p < timeout)
    (hpend : ∀ i, i < j₀ → getStatus i = "PENDING") :
    ∀ d j, j₀ - j ≤ d → j ≤ j₀ →
      wait_loop getStatus pid timeout p hp (j * p) j =
        wait_loop getStatus pid timeout p hp (j₀ * p) j₀ := by
  intro d
  induction d with
  | zero =>
    intro j h1 h2
    have : j = j₀ := by omega
    rw [this]
  | succ d ih =>
    intro j h1 h2
    by_cases hj : j = j₀
    · rw [hj]
    · have hjlt : j < j₀ := by omega
      have hjp : j * p < timeout :=
        Nat.lt_of_le_of_lt (Nat.mul_le_mul_right p (Nat.le_of_lt hjlt)) hlt
      conv_lhs => unfold wait_loop
      rw [dif_pos hjp, hpend j hjlt, if_neg (by decide), if_neg (by decide)]
      have hexp : j * p + p = (j + 1) * p := by ring
      rw [hexp]
      exact ih (j + 1) (by omega) (by omega)

/-- **C4.**  `wait_for_approval` polls the backend once per `poll_interval`
(the `j`-th poll happens iff `j * poll_interval < timeout`): when every poll
before `j` reports `"PENDING"` and the `j`-th scheduled poll reports
`"APPROVED"` it returns `true`, on `"REJECTED"` it returns `false`, and when
every scheduled poll reports `"PENDING"` it raises the `TimeoutError` the
spec calls `ApprovalTimeoutError`.  The backend (`getStatus`) is a pure
function the polling loop only reads, so the proposal remains pending in
the backend.  The positivity hypothesis on `poll_interval` reflects that the
source loop only terminates for a positive interval. -/
theorem wait_for_approval_polling (getStatus : Nat → String) (pid : String)
    (timeout p : Nat) (hp : 0 < p) :
    ((∀ j, j * p < timeout → getStatus j = "PENDING") →
      wait_for_approval getStatus pid timeout p hp =
        Except.error (approvalTimeout pid timeout)) ∧
    (∀ j, j * p < timeout → (∀ i, i < j → getStatus i = "PENDING") →
      ((getStatus j = "APPROVED" →
          wait_for_approval getStatus pid timeout p hp = Except.ok true) ∧
       (getStatus j = "REJECTED" →
          wait_for_approval getStatus pid timeout p hp =
            Except.ok false))) := by
  have hzero : wait_loop getStatus pid timeout p hp (0 * p) 0 =
      wait_loop getStatus pid timeout p hp 0 0 := by
    rw [Nat.zero_mul]
  constructor
  · intro hpend
    have h := wait_loop_timeout getStatus pid timeout p hp hpend
      timeout 0 (by omega)
    unfold wait_for_approval
    rw [← hzero]
    exact h
  · intro j hj hpend
    have hreach : wait_for_approval getStatus pid timeout p hp =
        wait_loop getStatus pid timeout p hp (j * p) j := by
      have hr := wait_loop_reach getStatus pid timeout p hp j hj hpend
        j 0 (by omega) (Nat.zero_le _)
      unfold wait_for_approval
      rw [← hzero]
      exact hr
    constructor
    · intro happ
      rw [hreach]
      unfold wait_loop
      rw [dif_pos hj, happ, if_pos (Or.inl rfl)]
    · intro hrej
      rw [hreach]
      unfold wait_loop
      rw [dif_pos hj, hrej, if_neg (by decide), if_pos rfl]

/-- The poll schedule of the spec scenario: two pending polls, then
approval. -/
def scenarioStatus (j : Nat) : String :=
  if j < 2 then "PENDING" else "APPROVED"

/-- **C4, witness.**  The spec scenario: the proposal goes
pending→pending→approved across 3 polls with `poll_interval = 1`,
`timeout = 10`; `wait_for_approval` returns `true`. -/
theorem wait_for_approval_polling_witness :
    wait_for_approval scenarioStatus "prop_1" 10 1 Nat.one_pos =
      Except.ok true :=
  ((wait_for_approval_polling scenarioStatus "prop_1" 10 1 Nat.one_pos).2
    2 (by decide) (by decide)).1 (by decide)

/-- **C3.**  `autonomous_loop` over tasks `[t1, ..., tn]`: it always
produces exactly `n` results; under the frame hypotheses that the abstract
`execute` does not itself touch the loop's bookkeeping fields, the results
are in input order with an `{"error": str(e)}` marker for each raising task
(stated for an `execute` whose outcome does not depend on the session
state), `tasks_completed` grows by exactly the number of successful tasks,
each failed task `ti` contributes exactly one error record with context
`"task_i"` (1-based), in order; and the session is always `"completed"`
with `ended_at` set once the loop finishes, regardless of per-task
outcomes. -/
theorem autonomous_loop_spec
    (exec : Nat → String → AgentSession → Except PyError Response × AgentSession)
    (tasks : List String) (s0 : AgentSession) (clock : Nat) :
    (autonomous_loop exec tasks s0 clock).1.length = tasks.length ∧
    (autonomous_loop exec tasks s0 clock).2.status = "completed" ∧
    (autonomous_loop exec tasks s0 clock).2.ended_at ≠ none ∧
    ((∀ i t s, ((exec i t s).2).tasks_completed = s.tasks_completed) →
      (autonomous_loop exec tasks s0 clock).2.tasks_completed =
        s0.tasks_completed +
          (autonomous_loop exec tasks s0 clock).1.countP
            (fun r => TaskResult.isOk r)) ∧
    ((∀ i t s, ((exec i t s).2).errors = s.errors) →
      (autonomous_loop exec tasks s0 clock).2.errors.map
          (fun r => r.context) =
        s0.errors.map (fun r => r.context) ++
          errorContextsFrom 0 (autonomous_loop exec tasks s0 clock).1) ∧
    ((∀ i t s, (exec i t s).1 = (exec i t s0).1) →
      (autonomous_loop exec tasks s0 clock).1 =
        (tasks.enumFrom 0).map
          (fun q => resultOfOutcome (exec q.1 q.2 s0).1)) := by
  refine ⟨?_, rfl, ?_, ?_, ?_, ?_⟩
  · show (autonomous_loop_go exec 0 tasks s0 clock).1.length = tasks.length
    exact autonomous_loop_go_length exec tasks 0 s0 clock
  · show some (autonomous_loop_go exec 0 tasks s0 clock).2.2 ≠ none
    simp
  · intro hexec
    show ((autonomous_loop_go exec 0 tasks s0 clock).2.1.complete _).tasks_completed = _
    have h := autonomous_loop_go_tasks_completed exec hexec tasks 0 s0 clock
    exact h
  · intro hexec
    show ((autonomous_loop_go exec 0 tasks s0 clock).2.1.complete _).errors.map _ = _
    have h := autonomous_loop_go_errors exec hexec tasks 0 s0 clock
    exact h
  · intro hpure
    show (autonomous_loop_go exec 0 tasks s0 clock).1 = _
    exact autonomous_loop_go_results_pure exec s0 hpure tasks 0 s0 clock

/-- A concrete `execute` for the C3 witness: the first task succeeds, every
later one raises. -/
def witExec (i : Nat) (t : String) (s : AgentSession) :
    Except PyError Response × AgentSession :=
  if i = 0 then (Except.ok ⟨"done " ++ t⟩, s)
  else (Except.error ⟨"boom", "RuntimeError"⟩, s)

/-- **C3, witness.**  Two tasks, the second raising: two results in input
order (result then marker), `tasks_completed` grows by 1, one error record
with context `"task_2"`, and the session ends `"completed"`. -/
theorem autonomous_loop_spec_witness :
    (autonomous_loop witExec ["a", "b"] (mkSession "s0" "ag" 0) 5).1 =
      [TaskResult.ok ⟨"done a"⟩, TaskResult.errMarker "boom"] ∧
    (autonomous_loop witExec ["a", "b"] (mkSession "s0" "ag" 0)
      5).2.tasks_completed = 1 ∧
    (autonomous_loop witExec ["a", "b"] (mkSession "s0" "ag" 0)
      5).2.errors.map (fun r => r.context) = [some "task_2"] ∧
    (autonomous_loop witExec ["a", "b"] (mkSession "s0" "ag" 0)
      5).2.status = "completed" := by
  have h := autonomous_loop_spec witExec ["a", "b"] (mkSession "s0" "ag" 0) 5
  have hcnt := h.2.2.2.1 (by
    intro i t s
    unfold witExec
    split <;> rfl)
  have herr := h.2.2.2.2.1 (by
    intro i t s
    unfold witExec
    split <;> rfl)
  have hres := h.2.2.2.2.2 (by
    intro i t s
    unfold witExec
    split <;> rfl)
  refine ⟨?_, ?_, ?_, h.2.1⟩
  · rw [hres]; rfl
  · rw [hcnt, hres]; rfl
  · rw [herr, hres]; rfl

/-- **C9.**  The delegation prompt of the registry built by any sequence of
`register` calls: it is the empty string exactly when nothing was ever
registered; the registry lists the distinct registered names exactly once
each, in first-registration order (so a re-registration under an existing
name keeps its position), and the stored definition under each name is the
last one registered with it; and the rendered parts contain the
`"\n### {name}"` section header of every registered subagent. -/
theorem delegation_prompt_catalogue (regs : List SubagentDefinition) :
    (get_delegation_prompt (registerAll regs) = "" ↔ regs = []) ∧
    (registerAll regs).map (fun d => d.name) =
      firstOccurrences (regs.map (fun d => d.name)) ∧
    ((registerAll regs).map (fun d => d.name)).Nodup ∧
    (∀ d, d ∈ registerAll regs →
      ("\n### " ++ d.name) ∈ delegationPromptParts (registerAll regs)) ∧
    (∀ n, dictGet (registerAll regs) n = lastDefWith regs n) := by
  refine ⟨⟨?_, ?_⟩, registerAll_names regs, ?_, ?_, ?_⟩
  · intro hempty
    by_contra hne
    cases hregs : regs with
    | nil => exact hne hregs
    | cons r rest =>
      have hnames : (registerAll regs).map (fun d => d.name) =
          firstOccurrences (r.name :: rest.map (fun d => d.name)) := by
        rw [registerAll_names regs, hregs]
        rfl
      have hlne : registerAll regs ≠ [] := by
        intro hc
        rw [hc] at hnames
        exact firstOccurrences_ne_nil r.name (rest.map (fun d => d.name))
          hnames.symm
      have hfalse : (registerAll regs).isEmpty = false := by
        cases hl : registerAll regs with
        | nil => exact absurd hl hlne
        | cons a as => rfl
      unfold get_delegation_prompt at hempty
      rw [hfalse] at hempty
      simp only [Bool.false_eq_true, if_false] at hempty
      cases hl : registerAll regs with
      | nil => exact hlne hl
      | cons a as =>
        rw [hl] at hempty
        have hlen := joinNL_length_ge "\n## Available Subagents\n"
          ("You can delegate tasks to specialized subagents:\n" ::
            (a :: as).flatMap
              (fun d => ["\n### " ++ d.name, d.description ++ "\n"]) ++
            ["\nTo delegate to a subagent, use the delegate_to_subagent tool."])
        rw [show delegationPromptParts (a :: as) =
            "\n## Available Subagents\n" ::
            ("You can delegate tasks to specialized subagents:\n" ::
              (a :: as).flatMap
                (fun d => ["\n### " ++ d.name, d.description ++ "\n"]) ++
              ["\nTo delegate to a subagent, use the delegate_to_subagent tool."])
          from rfl] at hempty
        rw [hempty] at hlen
        revert hlen
        decide
  · intro hregs
    rw [hregs]
    rfl
  · rw [registerAll_names regs]
    exact nodup_firstOccAux [] (regs.map (fun d => d.name))
  · intro d hd
    unfold delegationPromptParts
    refine List.mem_append.mpr (Or.inl ?_)
    refine List.mem_append.mpr (Or.inr ?_)
    exact List.mem_flatMap.mpr ⟨d, hd, List.mem_cons_self _ _⟩
  · intro n
    have h := dictGet_registerAll_aux regs n []
    show dictGet (regs.foldl dictInsert []) n = lastDefWith regs n
    rw [h]
    cases lastDefWith regs n with
    | none => rfl
    | some d => rfl

/-- **C9, witness.**  Three registrations where `"writer"` is re-registered:
the prompt parts contain the `"\n### writer"` header, and lookup of
`"writer"` yields the later definition (silent replacement). -/
theorem delegation_prompt_catalogue_witness :
    ("\n### " ++ "writer") ∈ delegationPromptParts (registerAll
      [⟨"writer", "writes drafts", "You write.", none, none⟩,
       ⟨"researcher", "finds sources", "You research.", none, none⟩,
       ⟨"writer", "writes better drafts", "You write well.", none, none⟩]) ∧
    dictGet (registerAll
      [⟨"writer", "writes drafts", "You write.", none, none⟩,
       ⟨"researcher", "finds sources", "You research.", none, none⟩,
       ⟨"writer", "writes better drafts", "You write well.", none, none⟩])
      "writer" =
      some ⟨"writer", "writes better drafts", "You write well.", none,
        none⟩ := by
  have h := delegation_prompt_catalogue
    [⟨"writer", "writes drafts", "You write.", none, none⟩,
     ⟨"researcher", "finds sources", "You research.", none, none⟩,
     ⟨"writer", "writes better drafts", "You write well.", none, none⟩]
  refine ⟨h.2.2.2.1
    ⟨"writer", "writes better drafts", "You write well.", none, none⟩
    (by decide), ?_⟩
  exact (h.2.2.2.2 "writer").trans (by decide)

/-- **C8.**  `delegate` to a name absent from the registry fails with the
`ValueError` "Subagent '<name>' not found" — the error the spec's taxonomy
calls `UnknownSubagentError` — without invoking the reasoning operation
(the outcome is the same for every `reasonFn`, which is never applied), with
no hook invoked, and with the owning agent's session returned entirely
unchanged (no error record, no proposal, no status change). -/
theorem delegate_unknown_subagent (registry : List SubagentDefinition)
    (hooks : List Hook)
    (reasonFn : SubagentDefinition → AgentSession →
      Except PyError Response × AgentSession)
    (subagent_name task : String) (s : AgentSession)
    (h : dictGet registry subagent_name = none) :
    delegate registry hooks reasonFn subagent_name task s =
      ((Except.error (subagentNotFound subagent_name), []), s) := by
  unfold delegate
  rw [h]

/-- **C8, witness.**  Delegating to `"editor"` when only `"writer"` is
registered: the not-found error, no hook trace, session unchanged. -/
theorem delegate_unknown_subagent_witness :
    delegate [⟨"writer", "writes", "You write.", none, none⟩]
      [fun _ => Except.ok ()]
      (fun _ s => (Except.ok ⟨"text"⟩, s))
      "editor" "edit this" (mkSession "s1" "ag" 3) =
      ((Except.error (subagentNotFound "editor"), []),
        mkSession "s1" "ag" 3) :=
  delegate_unknown_subagent [⟨"writer", "writes", "You write.", none, none⟩]
    [fun _ => Except.ok ()]
    (fun _ s => (Except.ok ⟨"text"⟩, s))
    "editor" "edit this" (mkSession "s1" "ag" 3) (by decide)

/-- **C5, counterexample.**  The claim says every registered hook is
invoked after the reasoning call completes *whether it succeeded or
failed*; but when the reasoning call raises, `delegate` propagates the
exception before the hook loop: with one registered hook and a raising
reasoning call, the observable hook-invocation trace is empty although one
hook is registered. -/
theorem delegate_hooks_counterexample :
    (delegate [⟨"writer", "writes", "You write.", none, none⟩]
      [fun _ => Except.ok ()]
      (fun _ s => (Except.error (⟨"api down", "ReasoningError"⟩ : PyError), s))
      "writer" "draft" (mkSession "s2" "ag" 0)).1.2.length = 0 ∧
    ([fun _ => Except.ok ()] : List Hook).length = 1 :=
  ⟨rfl, rfl⟩

/-- **C5 (amended).**  Hooks run exactly when the reasoning call returns
successfully: then every registered hook is invoked synchronously with
`(subagentName, task, result)` — in registration order, each hook's own
raising caught and logged (its traced outcome never escapes) and the
delegation's result is the reasoning result, unaffected by any hook
failure (the equation holds for arbitrary hooks, raising or not).  When the
reasoning call raises, the exception propagates to the caller and no hook
is invoked. -/
theorem delegate_hooks_amended (registry : List SubagentDefinition)
    (hooks : List Hook)
    (reasonFn : SubagentDefinition → AgentSession →
      Except PyError Response × AgentSession)
    (subagent_name task : String) (s : AgentSession)
    (sub : SubagentDefinition)
    (hsub : dictGet registry subagent_name = some sub) :
    (∀ r s', reasonFn sub s = (Except.ok r, s') →
      delegate registry hooks reasonFn subagent_name task s =
        ((Except.ok r, hooks.map (fun h =>
          ((⟨subagent_name, task, r⟩ : HookCall),
           h ⟨subagent_name, task, r⟩))), s')) ∧
    (∀ e s', reasonFn sub s = (Except.error e, s') →
      delegate registry hooks reasonFn subagent_name task s =
        ((Except.error e, []), s')) := by
  constructor
  · intro r s' hr
    unfold delegate
    rw [hsub]
    simp only [hr]
  · intro e s' he
    unfold delegate
    rw [hsub]
    simp only [he]

/-- **C5, witness.**  A successful reasoning call with one raising hook:
the hook is invoked with `(name, task, result)`, its exception is contained
in the trace, and the delegation still returns the reasoning result. -/
theorem delegate_hooks_amended_witness :
    delegate [⟨"writer", "writes", "You write.", none, none⟩]
      [fun _ => Except.error (⟨"hook blew up", "RuntimeError"⟩ : PyError)]
      (fun _ s => (Except.ok ⟨"draft text"⟩, s))
      "writer" "draft" (mkSession "s3" "ag" 0) =
      ((Except.ok ⟨"draft text"⟩,
        [((⟨"writer", "draft", ⟨"draft text"⟩⟩ : HookCall),
          Except.error (⟨"hook blew up", "RuntimeError"⟩ : PyError))]),
        mkSession "s3" "ag" 0) := by
  have h := (delegate_hooks_amended
    [⟨"writer", "writes", "You write.", none, none⟩]
    [fun _ => Except.error (⟨"hook blew up", "RuntimeError"⟩ : PyError)]
    (fun _ s => (Except.ok ⟨"draft text"⟩, s))
    "writer" "draft" (mkSession "s3" "ag" 0)
    ⟨"writer", "writes", "You write.", none, none⟩
    (by decide)).1 ⟨"draft text"⟩ (mkSession "s3" "ag" 0) rfl
  exact h

/-- **C2, counterexample.**  The claim says a subagent declaring an empty
non-null tool set receives no tools at all; but the source guard
`if subagent.tools and tools:` treats the empty list as falsy, skips the
filter, and passes the caller's tools through unchanged: with
`tools = some []` on the subagent and one caller tool, the reasoning call
receives that tool, not the empty list. -/
theorem subagent_empty_tools_counterexample :
    (execute_subagent ⟨"writer", "writes", "You write.", some [], none⟩
      "draft" none (some [⟨"search", "Search the web", "schema", []⟩])
      none).tools =
      some [⟨"search", "Search the web", "schema", []⟩] ∧
    some [(⟨"search", "Search the web", "schema", []⟩ : ToolDict)] ≠
      some ([] : List ToolDict) :=
  ⟨rfl, by decide⟩

/-- **C2 (amended).**  The tool list `_execute_subagent` passes to the
reasoning call: a subagent with `tools = None` receives all caller-supplied
tools unchanged; a subagent declaring a *non-empty* tool set receives
exactly the caller tools whose name is in that set (exact name match, in
caller order — restriction, never expansion); but a subagent declaring an
empty non-null tool set also receives all caller-supplied tools unchanged
(the empty list is treated like `None` by the source's truthiness test);
and an absent caller tool list stays absent. -/
theorem subagent_tool_filtering_amended (sub : SubagentDefinition)
    (task : String) (context : Option String) (ts : List ToolDict)
    (mt : Option Nat) :
    (sub.tools = none →
      (execute_subagent sub task context (some ts) mt).tools = some ts) ∧
    (sub.tools = some [] →
      (execute_subagent sub task context (some ts) mt).tools = some ts) ∧
    (∀ st, sub.tools = some st → st ≠ [] →
      (execute_subagent sub task context (some ts) mt).tools =
        some (ts.filter (fun t => st.contains t.name))) ∧
    (execute_subagent sub task context none mt).tools = none := by
  refine ⟨?_, ?_, ?_, ?_⟩
  · intro hn
    show execute_subagent_tools sub (some ts) = some ts
    unfold execute_subagent_tools
    rw [hn]
  · intro hn
    show execute_subagent_tools sub (some ts) = some ts
    unfold execute_subagent_tools
    rw [hn]
    rfl
  · intro st hst hne
    show execute_subagent_tools sub (some ts) = _
    unfold execute_subagent_tools
    rw [hst]
    cases hts : ts with
    | nil =>
      have hemp : st.isEmpty = false := by
        cases st with
        | nil => exact absurd rfl hne
        | cons a as => rfl
      simp [hemp]
    | cons t rest =>
      have hemp : st.isEmpty = false := by
        cases st with
        | nil => exact absurd rfl hne
        | cons a as => rfl
      simp [hemp]
  · show execute_subagent_tools sub none = none
    unfold execute_subagent_tools
    cases sub.tools with
    | none => rfl
    | some st => rfl

/-- **C2, witness.**  The spec scenario: subagent `"writer"` with
`tools = ["search"]`, caller supplies `["search", "fetch"]`; the reasoning
call receives only the `"search"` tool. -/
theorem subagent_tool_filtering_witness :
    (execute_subagent
      ⟨"writer", "writes", "You write.", some ["search"], none⟩
      "draft" none
      (some [⟨"search", "Search the web", "schema", []⟩,
             ⟨"fetch", "Fetch a page", "schema", []⟩]) none).tools =
      some [⟨"search", "Search the web", "schema", []⟩] := by
  have h := (subagent_tool_filtering_amended
    ⟨"writer", "writes", "You write.", some ["search"], none⟩
    "draft" none
    [⟨"search", "Search the web", "schema", []⟩,
     ⟨"fetch", "Fetch a page", "schema", []⟩] none).2.2.1
    ["search"] rfl (by decide)
  rw [h]
  rfl

/-- **C6, counterexample.**  The claim says caller tool declarations are
forwarded verbatim to the provider; but `reason` rebuilds each tool dict
from only its `name`, `description` and `input_schema` keys: a caller tool
carrying an extra entry (as the repository's own `create_subagent_tool`
does with its `function` key) is forwarded with that entry stripped, so the
forwarded list differs from the caller's. -/
theorem reason_tools_verbatim_counterexample :
    (reason "claude-sonnet-4-5" none none "summarize" none none
      (some [⟨"delegate_to_subagent", "Delegate a task", "schema",
        [("function", "registry.delegate")]⟩]) 4096 false).tools =
      some [⟨"delegate_to_subagent", "Delegate a task", "schema", []⟩] ∧
    (⟨"delegate_to_subagent", "Delegate a task", "schema", []⟩ : ToolDict) ≠
      ⟨"delegate_to_subagent", "Delegate a task", "schema",
        [("function", "registry.delegate")]⟩ :=
  ⟨rfl, by decide⟩

/-- **C6 (amended).**  The request `reason` builds: the message sequence is
the context message followed by the task message when a non-empty context
is supplied, and just the task message when the context is absent (or
empty, by the source's truthiness test); the system prompt is the non-empty
explicit override when given, else the non-empty subclass default, else the
key is absent; and the caller's tools are forwarded projected to their
`name`, `description` and `input_schema` fields, in caller order, with any
other entries dropped (an empty or absent tool list leaves the key
absent). -/
theorem reason_request_amended (model : String)
    (dflt csid : Option String) (task : String) (context : Option String)
    (sp : Option String) (tools : Option (List ToolDict)) (mt : Nat)
    (rs : Bool) :
    (∀ c, context = some c → c ≠ "" →
      (reason model dflt csid task context sp tools mt rs).messages =
        [⟨"user", "**Relevant Context:**\n\n" ++ c⟩, ⟨"user", task⟩]) ∧
    (context = none →
      (reason model dflt csid task context sp tools mt rs).messages =
        [⟨"user", task⟩]) ∧
    (∀ sps, sp = some sps → sps ≠ "" →
      (reason model dflt csid task context sp tools mt rs).system =
        some sps) ∧
    ((sp = none ∨ sp = some "") → ∀ d, dflt = some d → d ≠ "" →
      (reason model dflt csid task context sp tools mt rs).system =
        some d) ∧
    ((sp = none ∨ sp = some "") → (dflt = none ∨ dflt = some "") →
      (reason model dflt csid task context sp tools mt rs).system = none) ∧
    (∀ ts, tools = some ts → ts ≠ [] →
      (reason model dflt csid task context sp tools mt rs).tools =
        some (ts.map projectTool)) ∧
    (tools = none →
      (reason model dflt csid task context sp tools mt rs).tools = none) := by
  refine ⟨?_, ?_, ?_, ?_, ?_, ?_, ?_⟩
  · intro c hc hne
    unfold reason
    rw [hc]
    have hemp : c.isEmpty = false := by
      cases hdata : c.isEmpty with
      | false => rfl
      | true => exact absurd ((String.isEmpty_iff c).mp hdata) hne
    simp [hemp]
  · intro hc
    unfold reason
    rw [hc]
    rfl
  · intro sps hsp hne
    unfold reason
    rw [hsp]
    have htr : strTruthy (some sps) = true := by
      show (!sps.isEmpty) = true
      cases hdata : sps.isEmpty with
      | false => rfl
      | true => exact absurd ((String.isEmpty_iff sps).mp hdata) hne
    simp [htr, pyOrStr]
  · intro hsp d hd hne
    have hspf : strTruthy sp = false := by
      rcases hsp with h | h <;> rw [h] <;> rfl
    have htr : strTruthy (some d) = true := by
      show (!d.isEmpty) = true
      cases hdata : d.isEmpty with
      | false => rfl
      | true => exact absurd ((String.isEmpty_iff d).mp hdata) hne
    unfold reason
    rw [hd]
    simp [hspf, htr, pyOrStr]
  · intro hsp hd
    have hspf : strTruthy sp = false := by
      rcases hsp with h | h <;> rw [h] <;> rfl
    have hdf : strTruthy dflt = false := by
      rcases hd with h | h <;> rw [h] <;> rfl
    unfold reason
    simp [hspf, hdf]
  · intro ts hts hne
    unfold reason
    rw [hts]
    have hemp : ts.isEmpty = false := by
      cases ts with
      | nil => exact absurd rfl hne
      | cons a as => rfl
    simp [hemp]
  · intro hts
    unfold reason
    rw [hts]

/-- **C6, witness.**  A concrete `reason` call with a non-empty context, no
explicit system prompt, a non-empty default, and one extra-keyed tool: the
context message comes first, the default system prompt is chosen, and the
tool is forwarded as its three declared fields. -/
theorem reason_request_amended_witness :
    (reason "claude-sonnet-4-5" (some "default prompt") none "task text"
      (some "ctx") none
      (some [⟨"search", "Search", "schema", [("extra", "yes")]⟩])
      4096 false).messages =
      [⟨"user", "**Relevant Context:**\n\n" ++ "ctx"⟩,
       ⟨"user", "task text"⟩] ∧
    (reason "claude-sonnet-4-5" (some "default prompt") none "task text"
      (some "ctx") none
      (some [⟨"search", "Search", "schema", [("extra", "yes")]⟩])
      4096 false).system = some "default prompt" ∧
    (reason "claude-sonnet-4-5" (some "default prompt") none "task text"
      (some "ctx") none
      (some [⟨"search", "Search", "schema", [("extra", "yes")]⟩])
      4096 false).tools =
      some [⟨"search", "Search", "schema", []⟩] := by
  have h := reason_request_amended "claude-sonnet-4-5"
    (some "default prompt") none "task text" (some "ctx") none
    (some [⟨"search", "Search", "schema", [("extra", "yes")]⟩]) 4096 false
  refine ⟨h.1 "ctx" rfl (by decide), ?_, ?_⟩
  · exact h.2.2.2.1 (Or.inl rfl) "default prompt" rfl (by decide)
  · have := h.2.2.2.2.2.1
      [⟨"search", "Search", "schema", [("extra", "yes")]⟩] rfl (by decide)
    rw [this]
    rfl
